import Mathlib

/-
  Verification of the file-discovery core of Subaru-PFS/drp_ga_pipeline.

  Shallow embedding of `pfs/ga/pipeline/data/filesystemconnector.py` and
  `pfs/ga/pipeline/util/hexidfilter.py`. Python exceptions are modelled with
  `Except PyError`; raising is `Except.error`, normal return is `Except.ok`.
  The compiled regular expression applied to a path is abstracted as a
  function `String -> Option (String -> String)`: `none` models a failed
  `re.search`, `some groups` models a match object whose named capture
  groups are read with `groups k` (each filter name is a group of the
  configured regex, so group access is total).
-/

namespace DrpGA

/-- Python exception values raised by the connector code, tagged by the
exception class used at the raise site. -/
inductive PyError where
  | valueError (msg : String)
  | fileNotFoundError (msg : String)
  | parseError (msg : String)
  | indexError (msg : String)
deriving DecidableEq, Repr

/-- The Python class name of an exception value. -/
def PyError.kind : PyError → String
  | .valueError _ => "ValueError"
  | .fileNotFoundError _ => "FileNotFoundError"
  | .parseError _ => "ParseError"
  | .indexError _ => "IndexError"

/-- The exception class of the result of a call, `none` when it returned
normally. -/
def errorKind {α : Type} : Except PyError α → Option String
  | .error e => some e.kind
  | .ok _ => none

/-- Modelled from the spec: the query state of the `IDFilter` base class
(`idfilter.py` is not under `src/`; only its subclasses and call sites are).
Per spec section 4.1 a filter's query state is exactly one of: unconstrained,
a single value, a set of values, or an inclusive range. -/
inductive QueryState (V : Type) where
  | unconstrained
  | single (v : V)
  | values (vs : List V)
  | range (lo hi : V)

/-- Modelled from the spec: `IDFilter.match` (`idfilter.py` is not under
`src/`). Spec section 4.1: unconstrained is always true, single is equality,
set is membership, range is `min <= value <= max` inclusive on both ends. -/
def filterMatch {V : Type} [LinearOrder V] : QueryState V → V → Bool
  | .unconstrained, _ => true
  | .single w, v => decide (v = w)
  | .values ws, v => decide (v ∈ ws)
  | .range lo hi, v => decide (lo ≤ v ∧ v ≤ hi)

/-- One named, typed identity dimension as the discovery engine uses it:
`parse_value` converts a capture-group token to the typed value (raising
`ParseError` on malformed tokens, modelled as `Except.error`), and `query`
is the filter's current query state. The concrete variants (int, hex, date,
string) only differ in `parse_value` and the value type `V`, so the
discovery code is embedded parametrically over them. -/
structure IDFilter (V : Type) where
  parse_value : String → Except PyError V
  query : QueryState V

/-- `IDFilter.match` applied to the filter's current query (named `matchv`
because `match` is reserved in Lean). -/
def IDFilter.matchv {V : Type} [LinearOrder V] (f : IDFilter V) (v : V) : Bool :=
  filterMatch f.query v

variable {V : Type}

/-- The body of the per-candidate loop of
`FileSystemConnector.__find_files_and_match_params` (lines 254-261): for every
filter `(k, p)` of `params`, in order, parse the capture-group token
`groups k` with `p.parse_value` (an exception propagates: the Python code has
no handler around `param.parse_value`) and fold `good &= param.match(value)`.
Returns the per-filter values of the candidate (the `values` dict, whose keys
are exactly the params keys in params order) together with `good`. -/
def parse_and_match_all [LinearOrder V] (params : List (String × IDFilter V))
    (groups : String → String) : Except PyError (List (String × V) × Bool) :=
  match params with
  | [] => .ok ([], true)
  | (k, p) :: rest =>
    match p.parse_value (groups k) with
    | .error e => .error e
    | .ok v =>
      match parse_and_match_all rest groups with
      | .error e => .error e
      | .ok (vs, good) => .ok ((k, v) :: vs, p.matchv v && good)

/-- The candidate loop of `__find_files_and_match_params` (lines 248-266):
for each glob candidate `path`, apply the regex; on no match skip the
candidate silently; on a match run `parse_and_match_all` (an exception
propagates and aborts the whole loop) and keep the candidate exactly when
`good` is true. Returns the kept candidates with their parsed records, in
candidate order. -/
def match_candidates [LinearOrder V] (params : List (String × IDFilter V))
    (rm : String → Option (String → String)) :
    List String → Except PyError (List (String × List (String × V)))
  | [] => .ok []
  | path :: rest =>
    match rm path with
    | none => match_candidates params rm rest
    | some groups =>
      match parse_and_match_all params groups with
      | .error e => .error e
      | .ok (vs, good) =>
        match match_candidates params rm rest with
        | .error e => .error e
        | .ok tail => .ok (if good then (path, vs) :: tail else tail)

/-- Reading `values[k]` of a per-candidate record. The record always carries
exactly the filter names as keys, so the `default` branch is unreachable on
records produced by `parse_and_match_all`. -/
def record_get [Inhabited V] (rec : List (String × V)) (k : String) : V :=
  (rec.lookup k).getD default

/-- `__find_files_and_match_params`, lines 245-268: run the candidate loop
and return the kept paths (`filenames`) together with the `ids` record,
one per-filter list of parsed values positionally aligned with the paths.
The Python code appends `path` to `filenames` and `values[k]` to `ids[k]`
inside the loop; this embedding collects the kept `(path, values)` pairs
first and then projects the same two accumulators from them. Glob expansion
(lines 236-242) is pure filesystem input and enters as the `paths` list. -/
def find_files_and_match_params [LinearOrder V] [Inhabited V]
    (params : List (String × IDFilter V)) (rm : String → Option (String → String))
    (paths : List String) : Except PyError (List String × List (String × List V)) :=
  match match_candidates params rm paths with
  | .error e => .error e
  | .ok ms =>
    .ok (ms.map Prod.fst,
         params.map (fun kp => (kp.1, ms.map (fun m => record_get m.2 kp.1))))

/-- Collapsing each per-field list to its first element, as
`__get_single_file` does with `v[0]`; Python raises `IndexError` on an empty
list. -/
def collapse_ids (ids : List (String × List V)) : Except PyError (List (String × V)) :=
  match ids with
  | [] => .ok []
  | (k, l) :: rest =>
    match l with
    | [] => .error (.indexError "list index out of range")
    | v :: _ =>
      match collapse_ids rest with
      | .error e => .error e
      | .ok c => .ok ((k, v) :: c)

/-- `FileSystemConnector.__get_single_file` (lines 270-295): zero files and
two-or-more files both raise `FileNotFoundError` (with different messages);
exactly one file returns it together with the identity record collapsed from
the one-element per-field lists. -/
def get_single_file (files : List String) (ids : List (String × List V)) :
    Except PyError (String × List (String × V)) :=
  match files with
  | [] => .error (.fileNotFoundError "No file found matching the query.")
  | [f] =>
    match collapse_ids ids with
    | .error e => .error e
    | .ok c => .ok (f, c)
  | _ :: _ :: _ => .error (.fileNotFoundError "Multiple files found matching the query.")

/-- `FileSystemConnector.__ensure_one_param` (lines 154-171): raises
`ValueError` unless exactly one of the keyword arguments is not `None`.
Each argument enters as its name paired with the `x is not None` flag. -/
def ensure_one_param (kwargs : List (String × Bool)) : Except PyError Unit :=
  if (kwargs.filter (fun kv => kv.2)).length ≠ 1 then
    .error (.valueError ("Only one of the parameters " ++
      String.intercalate ", " (kwargs.map (fun kv => kv.1)) ++ " can be specified ."))
  else
    .ok ()

/-- Common validation head of `load_pfsDesign` (line 483), `load_pfsConfig`
(line 616) and `load_pfsSingle` (line 680): each begins with
`self.__ensure_one_param(filename=filename, identity=identity)` before any
other work; `rest` abstracts the product-specific remainder of the load
(filename parsing, directory formatting and the domain-object read). -/
def load_product {I R : Type} (filename : Option String) (identity : Option I)
    (rest : Option String → Option I → Except PyError R) : Except PyError R :=
  match ensure_one_param [("filename", filename.isSome), ("identity", identity.isSome)] with
  | .error e => .error e
  | .ok _ => rest filename identity

/-- `FileSystemConnector.__throw_or_warn` (lines 135-152): raise the
exception when `required`, otherwise log a warning and continue (logging is
a side effect outside the embedding; the call returns normally). The default
`exception_type` at every call site modelled here is `ValueError`. -/
def throw_or_warn (message : String) (required : Bool) : Except PyError Unit :=
  if required then .error (.valueError message) else .ok ()

/-- The dict comprehension of `__parse_filename_params` (line 194): parse
every filter's named capture group, building the identity record; the first
`ParseError` propagates. -/
def parse_record (params : List (String × IDFilter V)) (groups : String → String) :
    Except PyError (List (String × V)) :=
  match params with
  | [] => .ok []
  | (k, p) :: rest =>
    match p.parse_value (groups k) with
    | .error e => .error e
    | .ok v =>
      match parse_record rest groups with
      | .error e => .error e
      | .ok r => .ok ((k, v) :: r)

/-- `FileSystemConnector.__parse_filename_params` (lines 173-197): apply the
regex to the path; on a match return the record of parsed capture groups; on
no match raise (required) or warn and return `None` (not required). -/
def parse_filename_params (path : String) (params : List (String × IDFilter V))
    (rm : String → Option (String → String)) (required : Bool) :
    Except PyError (Option (List (String × V))) :=
  match rm path with
  | some groups =>
    match parse_record params groups with
    | .error e => .error e
    | .ok r => .ok (some r)
  | none =>
    match throw_or_warn ("Filename does not match expected format: " ++ path) required with
    | .error e => .error e
    | .ok _ => .ok none

/-- Assignment `params[k].values = q` of `__find_files_and_match_params`:
replaces the query state of the filter stored under key `k`. Modelled from
the spec for the `values` setter itself (the `IDFilter` base class is not
under `src/`): setting a filter's query replaces it entirely. -/
def set_query (ps : List (String × IDFilter V)) (k : String) (q : QueryState V) :
    List (String × IDFilter V) :=
  ps.map (fun kp => if kp.1 = k then (kp.1, { kp.2 with query := q }) else kp)

/-- One iteration of the override loop of `__find_files_and_match_params`
(lines 228-233) for the entry `kv` of `param_values`: if the key names a
filter, a non-`None` override sets that filter's query; a `None` override
falls back to the connector instance's default filter for that name when
`hasattr(self, k)` holds (`instance_defaults k = some q`), else leaves the
filter untouched. Keys that name no filter are ignored. -/
def update_one (ps : List (String × IDFilter V))
    (instance_defaults : String → Option (QueryState V))
    (k : String) (ov : Option (QueryState V)) : List (String × IDFilter V) :=
  if (ps.lookup k).isSome then
    match ov with
    | some q => set_query ps k q
    | none =>
      match instance_defaults k with
      | some q => set_query ps k q
      | none => ps
  else ps

/-- The override loop of `__find_files_and_match_params` (lines 227-233),
folding `update_one` over the caller's `param_values` in order. -/
def update_param_values (ps : List (String × IDFilter V))
    (param_values : List (String × Option (QueryState V)))
    (instance_defaults : String → Option (QueryState V)) : List (String × IDFilter V) :=
  param_values.foldl (fun acc kv => update_one acc instance_defaults kv.1 kv.2) ps

/-- Python `reference_path.split(os.sep)` with `os.sep = '/'`: split at every
separator, keeping empty segments (structural recursion so that concrete
paths evaluate). -/
def splitSepAux : List Char → List Char → List String
  | [], acc => [String.mk acc.reverse]
  | c :: cs, acc =>
    if c = '/' then String.mk acc.reverse :: splitSepAux cs []
    else splitSepAux cs (c :: acc)

/-- `str.split('/')` on a whole string. -/
def split_sep (s : String) : List String := splitSepAux s.data []

/-- Anchor search of `FileSystemConnector.get_datadir` (lines 329-336):
the index of `rerun` in the path segments, else of `pfsConfig`, else of
`pfsDesign`, else `none` (Python keeps `rerun_index = -1`). -/
def anchor_index (dirs : List String) : Option Nat :=
  match dirs.findIdx? (fun d => d == "rerun") with
  | some i => some i
  | none =>
    match dirs.findIdx? (fun d => d == "pfsConfig") with
    | some i => some i
    | none => dirs.findIdx? (fun d => d == "pfsDesign")

/-- `FileSystemConnector.get_datadir` (lines 300-341). `datadir` is the
connector's configured default data directory; `abspath` abstracts
`os.path.abspath` (a pure path normalisation against the working directory);
`os.sep` is `/`. With no reference path the default directory is returned;
with one, the data directory is everything above the first recognised anchor
segment, and a missing anchor raises (required) or warns and falls back to
the default. -/
def get_datadir (datadir : String) (abspath : String → String)
    (reference_path : Option String) (required : Bool) : Except PyError String :=
  match reference_path with
  | none => .ok (abspath datadir)
  | some rp =>
    let dirs := split_sep rp
    match anchor_index dirs with
    | some i => .ok (abspath (String.intercalate "/" (dirs.take i)))
    | none =>
      match throw_or_warn "Data directory cannot be inferred from reference path." required with
      | .error e => .error e
      | .ok _ => .ok (abspath datadir)

/-- The lowercase hexadecimal digit character for `d` (0-15), as produced by
Python's `x` format type: `0`-`9` then `a`-`f`. -/
def hexDigitChar (d : Nat) : Char :=
  if d < 10 then Char.ofNat (d + 48) else Char.ofNat (d + 87)

/-- Most-significant-digit-first hex digits of `n`, empty for `n = 0`;
`fuel` bounds the recursion and is adequate whenever `n < 16 ^ fuel`. -/
def hexDigitsAux : Nat → Nat → List Char
  | 0, _ => []
  | fuel + 1, n =>
    if n = 0 then [] else hexDigitsAux fuel (n / 16) ++ [hexDigitChar (n % 16)]

/-- The minimal lowercase hex digit string of `n` (empty for `0`; the
caller below restores Python's rendering of `0` as a single digit). -/
def hex_digits (n : Nat) : List Char := hexDigitsAux n n

/-- Python `format(v, '016x')`, the `format` string of the `pfsDesignId` /
`objId` filters built in `FileSystemConnector.__init__` (lines 56, 60), with
the width as a parameter: lowercase hex digits of `v`, zero-padded on the
left to at least `width` characters, never truncated. -/
def format_value_hex (width : Nat) (v : Nat) : String :=
  let ds := hex_digits v
  let ds := if ds = [] then ['0'] else ds
  String.mk (List.replicate (width - ds.length) '0' ++ ds)

/-- The value of a hexadecimal digit character, `none` for anything else;
`int(-, 16)` accepts both letter cases. -/
def hexDigitVal (c : Char) : Option Nat :=
  if '0' ≤ c ∧ c ≤ '9' then some (c.toNat - 48)
  else if 'a' ≤ c ∧ c ≤ 'f' then some (c.toNat - 87)
  else if 'A' ≤ c ∧ c ≤ 'F' then some (c.toNat - 55)
  else none

/-- Left-to-right accumulation of a base-16 integer literal. -/
def parseHexAcc (acc : Nat) : List Char → Option Nat
  | [] => some acc
  | c :: cs =>
    match hexDigitVal c with
    | some d => parseHexAcc (16 * acc + d) cs
    | none => none

/-- `HexIDFilter._parse_value` (`hexidfilter.py`, line 15): `int(value, 16)`.
Covers plain strings of hexadecimal digits, the only shape the hex format
above produces; the further literal forms Python accepts (sign, `0x` tag,
underscores, surrounding whitespace) never occur in formatted file names.
The empty string and any non-digit character raise (Python `ValueError`,
the spec's `ParseError`). -/
def parse_value_hex (s : String) : Except PyError Nat :=
  if s.data = [] then .error (.parseError "invalid literal for int() with base 16")
  else
    match parseHexAcc 0 s.data with
    | some n => .ok n
    | none => .error (.parseError "invalid literal for int() with base 16")

section HexLemmas

theorem hexDigitVal_hexDigitChar {d : Nat} (hd : d < 16) :
    hexDigitVal (hexDigitChar d) = some d := by
  interval_cases d <;> decide

theorem parseHexAcc_append (l1 l2 : List Char) (acc : Nat) :
    parseHexAcc acc (l1 ++ l2) =
      match parseHexAcc acc l1 with
      | some a => parseHexAcc a l2
      | none => none := by
  induction l1 generalizing acc with
  | nil => rfl
  | cons c cs ih =>
    simp only [List.cons_append, parseHexAcc]
    cases hexDigitVal c with
    | none => rfl
    | some d => exact ih _

theorem parseHexAcc_hexDigitsAux (fuel : Nat) :
    ∀ n acc, n < 16 ^ fuel →
      parseHexAcc acc (hexDigitsAux fuel n) =
        some (acc * 16 ^ (hexDigitsAux fuel n).length + n) := by
  induction fuel with
  | zero =>
    intro n acc hn
    simp only [pow_zero, Nat.lt_one_iff] at hn
    subst hn
    simp [hexDigitsAux, parseHexAcc]
  | succ fuel ih =>
    intro n acc hn
    by_cases h0 : n = 0
    · subst h0
      simp [hexDigitsAux, parseHexAcc]
    · have hdiv : n / 16 < 16 ^ fuel := by
        rw [Nat.div_lt_iff_lt_mul (by norm_num : 0 < 16)]
        calc n < 16 ^ (fuel + 1) := hn
        _ = 16 ^ fuel * 16 := by rw [pow_succ]
      simp only [hexDigitsAux, if_neg h0]
      rw [parseHexAcc_append]
      rw [ih (n / 16) acc hdiv]
      simp only [parseHexAcc, hexDigitVal_hexDigitChar (Nat.mod_lt n (by norm_num : 0 < 16))]
      have hlen : (hexDigitsAux fuel (n / 16) ++ [hexDigitChar (n % 16)]).length =
          (hexDigitsAux fuel (n / 16)).length + 1 := by simp
      rw [hlen]
      congr 1
      have hdm : 16 * (n / 16) + n % 16 = n := Nat.div_add_mod n 16
      ring_nf
      omega

theorem parseHexAcc_replicate_zero (k : Nat) (l : List Char) :
    parseHexAcc 0 (List.replicate k '0' ++ l) = parseHexAcc 0 l := by
  induction k with
  | zero => rfl
  | succ k ih =>
    simp only [List.replicate_succ, List.cons_append, parseHexAcc]
    exact ih

end HexLemmas

/-- C5: For the hexadecimal filter variant, `parse_value` inverts
`format_value`: for every non-negative integer `v` representable in the
fixed 16-digit width of the `016x` format used for `pfsDesignId` and
`objId`, base-16 parsing of the formatted string returns `v`. -/
theorem hex_roundtrip (v : Nat) (hv : v < 16 ^ 16) :
    parse_value_hex (format_value_hex 16 v) = .ok v := by
  unfold format_value_hex
  by_cases h0 : v = 0
  · subst h0
    rfl
  · have hne : hex_digits v ≠ [] := by
      unfold hex_digits
      cases hfv : v with
      | zero => exact absurd hfv h0
      | succ m =>
        simp only [hexDigitsAux, if_neg (by omega : m + 1 ≠ 0)]
        simp
    simp only [if_neg hne]
    have hfuel : v < 16 ^ v := Nat.lt_pow_self (by norm_num) v
    have hparse : parseHexAcc 0 (hex_digits v) = some v := by
      unfold hex_digits
      rw [parseHexAcc_hexDigitsAux v v 0 hfuel]
      simp
    unfold parse_value_hex
    have hdata : (String.mk (List.replicate (16 - (hex_digits v).length) '0' ++ hex_digits v)).data
        = List.replicate (16 - (hex_digits v).length) '0' ++ hex_digits v := rfl
    have hne2 : List.replicate (16 - (hex_digits v).length) '0' ++ hex_digits v ≠ [] := by
      simp [hne]
    rw [hdata, if_neg hne2, parseHexAcc_replicate_zero, hparse]

/-- Witness for C5 at `v = 42`. -/
theorem hex_roundtrip_witness :
    42 < 16 ^ 16 ∧ parse_value_hex (format_value_hex 16 42) = .ok 42 :=
  ⟨by norm_num, hex_roundtrip 42 (by norm_num)⟩

/-- C6: `matches(v)` is true when the filter is unconstrained; under a
single-value query true iff `v` equals that value; under a set query true
iff `v` is a member; under a range query true iff `min <= v <= max` with
both boundaries included — in particular a range query `visit=(100,105)`
accepts 100 and 105 and rejects 99 and 106. -/
theorem filter_match_modes {V : Type} [LinearOrder V] (v w lo hi : V) (vs : List V) :
    (filterMatch QueryState.unconstrained v = true)
    ∧ (filterMatch (QueryState.single w) v = true ↔ v = w)
    ∧ (filterMatch (QueryState.values vs) v = true ↔ v ∈ vs)
    ∧ (filterMatch (QueryState.range lo hi) v = true ↔ lo ≤ v ∧ v ≤ hi)
    ∧ (filterMatch (QueryState.range (100 : Int) 105) 100 = true
       ∧ filterMatch (QueryState.range (100 : Int) 105) 105 = true
       ∧ filterMatch (QueryState.range (100 : Int) 105) 99 = false
       ∧ filterMatch (QueryState.range (100 : Int) 105) 106 = false) := by
  refine ⟨rfl, ?_, ?_, ?_, ?_, ?_, ?_, ?_⟩ <;>
    simp [filterMatch]

/-- C4: each load-style call validates that exactly one of `filename` and
`identity` is given before any other work: when both or neither is given it
fails with `ValueError` (the spec's `InvalidQueryError`) no matter what the
rest of the load would do — in particular before any filesystem access —
and when exactly one is given the validation passes and the call proceeds
with the rest of the load. -/
theorem load_one_param {I R : Type} (filename : Option String) (identity : Option I) :
    ((filename.isSome = identity.isSome) →
      ∀ rest : Option String → Option I → Except PyError R,
        load_product filename identity rest =
          .error (.valueError "Only one of the parameters filename, identity can be specified ."))
    ∧ ((filename.isSome ≠ identity.isSome) →
      ∀ rest : Option String → Option I → Except PyError R,
        load_product filename identity rest = rest filename identity) := by
  constructor
  · intro hsame rest
    cases filename with
    | none =>
      cases identity with
      | none => rfl
      | some b => simp at hsame
    | some a =>
      cases identity with
      | none => simp at hsame
      | some b => rfl
  · intro hdiff rest
    cases filename with
    | none =>
      cases identity with
      | none => simp at hdiff
      | some b => rfl
    | some a =>
      cases identity with
      | none => rfl
      | some b => simp at hdiff

/-- Witness for C4: loading with only `identity` given passes validation and
runs the rest of the load. -/
theorem load_one_param_witness :
    load_product (I := Nat) (R := Nat) none (some 7) (fun _ i => .ok (i.getD 0)) = .ok 7 :=
  (load_one_param none (some 7)).2 (by simp) (fun _ i => .ok (i.getD 0))

/-- C10: `get_datadir` with no reference path returns the absolute path of
the configured default data directory for either value of `required` and
never raises; an error is possible only when a reference path was given,
`required` is true, and the path has no recognised anchor segment. -/
theorem get_datadir_no_reference (datadir : String) (abspath : String → String)
    (reference_path : Option String) (required : Bool) :
    (get_datadir datadir abspath none required = .ok (abspath datadir))
    ∧ (∀ e, get_datadir datadir abspath reference_path required = .error e →
        ∃ p, reference_path = some p ∧ required = true
          ∧ anchor_index (split_sep p) = none) := by
  constructor
  · rfl
  · intro e he
    cases reference_path with
    | none => simp [get_datadir] at he
    | some p =>
      refine ⟨p, rfl, ?_, ?_⟩ <;>
      · simp only [get_datadir] at he
        cases ha : anchor_index (split_sep p) with
        | some i => simp [ha] at he
        | none =>
          simp only [ha] at he
          cases hr : required with
          | false => simp [throw_or_warn, hr] at he
          | true => simp_all [throw_or_warn]

/-- Witness for C10: with no reference path the default directory is
returned even under `required = true`; and the error reached through an
anchor-free reference path indeed satisfies the characterisation. -/
theorem get_datadir_no_reference_witness :
    (get_datadir "data" (fun s => "/cwd/" ++ s) none true = .ok "/cwd/data")
    ∧ ∃ p, some "x/y" = some p ∧ true = true ∧ anchor_index (split_sep p) = none :=
  ⟨(get_datadir_no_reference "data" (fun s => "/cwd/" ++ s) none true).1,
   (get_datadir_no_reference "data" (fun s => "/cwd/" ++ s) (some "x/y") true).2
     (.valueError "Data directory cannot be inferred from reference path.") rfl⟩

section SingleFileLemmas

theorem collapse_ids_ok {V : Type} (ids : List (String × List V))
    (h : ∀ e ∈ ids, ∃ v, e.2 = [v]) :
    ∃ c, collapse_ids ids = .ok c
      ∧ c.map Prod.fst = ids.map Prod.fst
      ∧ ∀ k v, (k, [v]) ∈ ids → (k, v) ∈ c := by
  induction ids with
  | nil => exact ⟨[], rfl, rfl, by simp⟩
  | cons e rest ih =>
    obtain ⟨k, l⟩ := e
    obtain ⟨v, hv⟩ := h (k, l) (by simp)
    subst hv
    obtain ⟨c, hc, hmap, hmem⟩ := ih (fun e he => h e (by simp [he]))
    refine ⟨(k, v) :: c, ?_, ?_, ?_⟩
    · simp only [collapse_ids, hc]
    · simp [hmap]
    · intro k2 v2 hk2
      rcases List.mem_cons.mp hk2 with h1 | h2
      · simp only [Prod.mk.injEq, List.cons.injEq] at h1
        simp [h1.1, h1.2.1]
      · exact List.mem_cons_of_mem _ (hmem k2 v2 h2)

end SingleFileLemmas

/-- Counterexample to C3 as stated: the two-or-more-files case of
`__get_single_file` raises `FileNotFoundError` — the same exception kind as
the zero-files case — not a distinct `AmbiguousResultError`. -/
theorem get_single_file_same_kind :
    errorKind (get_single_file (V := Nat) ["a", "b"] [("k", [1, 2])])
        = some "FileNotFoundError"
    ∧ errorKind (get_single_file (V := Nat) [] [("k", [])]) = some "FileNotFoundError"
    ∧ errorKind (get_single_file (V := Nat) ["a", "b"] [("k", [1, 2])])
        = errorKind (get_single_file (V := Nat) [] [("k", [])]) :=
  ⟨rfl, rfl, rfl⟩

/-- C3 as amended: zero matching files raises
`FileNotFoundError('No file found matching the query.')`; two or more raise
`FileNotFoundError('Multiple files found matching the query.')` — the same
exception kind as the zero case, distinguished only by message, and never
silently picking one; exactly one match returns that path together with the
identity record collapsed from the one-element per-field lists. -/
theorem get_single_file_cases {V : Type} (files : List String)
    (ids : List (String × List V)) :
    (files = [] →
      get_single_file files ids = .error (.fileNotFoundError "No file found matching the query."))
    ∧ (2 ≤ files.length →
      get_single_file files ids
        = .error (.fileNotFoundError "Multiple files found matching the query."))
    ∧ (∀ f, files = [f] → (∀ e ∈ ids, ∃ v, e.2 = [v]) →
      ∃ c, get_single_file files ids = .ok (f, c)
        ∧ c.map Prod.fst = ids.map Prod.fst
        ∧ ∀ k v, (k, [v]) ∈ ids → (k, v) ∈ c) := by
  refine ⟨?_, ?_, ?_⟩
  · intro h
    subst h
    rfl
  · intro h
    match files with
    | [] => simp at h
    | [f] => simp at h
    | f1 :: f2 :: rest => rfl
  · intro f hf hids
    subst hf
    obtain ⟨c, hc, hmap, hmem⟩ := collapse_ids_ok ids hids
    exact ⟨c, by simp only [get_single_file, hc], hmap, hmem⟩

/-- Witness for C3 (amended) in the exactly-one case. -/
theorem get_single_file_cases_witness :
    ∃ c, get_single_file (V := Nat) ["a"] [("k", [7])] = .ok ("a", c)
      ∧ c.map Prod.fst = [("k", [7])].map Prod.fst
      ∧ ∀ k v, (k, [v]) ∈ [("k", [(7 : Nat)])] → (k, v) ∈ c :=
  (get_single_file_cases ["a"] [("k", [7])]).2.2 "a" rfl (by simp)

section ParseRecordLemmas

theorem parse_record_ok {V : Type} (params : List (String × IDFilter V))
    (groups : String → String)
    (h : ∀ kp ∈ params, ∃ v, kp.2.parse_value (groups kp.1) = .ok v) :
    ∃ rec, parse_record params groups = .ok rec
      ∧ rec.map Prod.fst = params.map Prod.fst
      ∧ ∀ kp ∈ params, ∃ v, kp.2.parse_value (groups kp.1) = .ok v ∧ (kp.1, v) ∈ rec := by
  induction params with
  | nil => exact ⟨[], rfl, rfl, by simp⟩
  | cons kp rest ih =>
    obtain ⟨k, p⟩ := kp
    obtain ⟨v, hv⟩ := h (k, p) (by simp)
    have hv2 : p.parse_value (groups k) = .ok v := hv
    obtain ⟨rec, hrec, hmap, hmem⟩ := ih (fun e he => h e (by simp [he]))
    refine ⟨(k, v) :: rec, ?_, ?_, ?_⟩
    · simp only [parse_record, hv2, hrec]
    · simp [hmap]
    · intro e he
      rcases List.mem_cons.mp he with h1 | h2
      · subst h1
        exact ⟨v, hv, by simp⟩
      · obtain ⟨w, hw, hwm⟩ := hmem e h2
        exact ⟨w, hw, List.mem_cons_of_mem _ hwm⟩

end ParseRecordLemmas

/-- C7: `__parse_filename_params` on a path the regex does not match raises
`ValueError` (the spec's `FormatMismatchError`) when `required` is true, and
returns `None` (after only logging a warning) when `required` is false; on a
matching path it returns an identifier assigning to every filter name the
value of that filter's `parse_value` on the corresponding capture group. -/
theorem parse_filename_params_cases {V : Type} (path : String)
    (params : List (String × IDFilter V)) (rm : String → Option (String → String))
    (required : Bool) :
    (rm path = none → required = true →
      parse_filename_params path params rm required
        = .error (.valueError ("Filename does not match expected format: " ++ path)))
    ∧ (rm path = none → required = false →
      parse_filename_params path params rm required = .ok none)
    ∧ (∀ groups, rm path = some groups →
      (∀ kp ∈ params, ∃ v, kp.2.parse_value (groups kp.1) = .ok v) →
      ∃ rec, parse_filename_params path params rm required = .ok (some rec)
        ∧ rec.map Prod.fst = params.map Prod.fst
        ∧ ∀ kp ∈ params, ∃ v, kp.2.parse_value (groups kp.1) = .ok v ∧ (kp.1, v) ∈ rec) := by
  refine ⟨?_, ?_, ?_⟩
  · intro hrm hreq
    subst hreq
    simp [parse_filename_params, hrm, throw_or_warn]
  · intro hrm hreq
    subst hreq
    simp [parse_filename_params, hrm, throw_or_warn]
  · intro groups hrm hall
    obtain ⟨rec, hrec, hmap, hmem⟩ := parse_record_ok params groups hall
    exact ⟨rec, by simp only [parse_filename_params, hrm, hrec], hmap, hmem⟩

/-- Witness for C7: the required mismatch raises; the optional mismatch
returns `None`. -/
theorem parse_filename_params_cases_witness :
    parse_filename_params (V := Nat) "zzz" [] (fun _ => none) true
        = .error (.valueError "Filename does not match expected format: zzz")
    ∧ parse_filename_params (V := Nat) "zzz" [] (fun _ => none) false = .ok none :=
  ⟨(parse_filename_params_cases "zzz" [] (fun _ => none) true).1 rfl rfl,
   (parse_filename_params_cases "zzz" [] (fun _ => none) false).2.1 rfl rfl⟩

section LookupLemmas

theorem lookup_of_mem_nodup {β : Type} {l : List (String × β)}
    (hnd : (l.map Prod.fst).Nodup) {k : String} {v : β} (hm : (k, v) ∈ l) :
    l.lookup k = some v := by
  induction l with
  | nil => simp at hm
  | cons e t ih =>
    obtain ⟨k1, v1⟩ := e
    simp only [List.map_cons, List.nodup_cons] at hnd
    rcases List.mem_cons.mp hm with h1 | h2
    · have hk : k = k1 := congrArg Prod.fst h1
      have hv : v = v1 := congrArg Prod.snd h1
      subst hk
      subst hv
      simp [List.lookup]
    · have hkne : k ≠ k1 := by
        intro hkk
        subst hkk
        exact hnd.1 (List.mem_map.mpr ⟨(k, v), h2, rfl⟩)
      have hbe : (k == k1) = false := beq_eq_false_iff_ne.mpr hkne
      simp only [List.lookup, hbe]
      exact ih hnd.2 h2

end LookupLemmas

section DiscoveryLemmas

variable {V : Type} [LinearOrder V]

theorem parse_and_match_all_keys {params : List (String × IDFilter V)}
    {groups : String → String} {vs : List (String × V)} {good : Bool}
    (h : parse_and_match_all params groups = .ok (vs, good)) :
    vs.map Prod.fst = params.map Prod.fst := by
  induction params generalizing vs good with
  | nil =>
    simp only [parse_and_match_all, Except.ok.injEq, Prod.mk.injEq] at h
    rw [← h.1]
    rfl
  | cons kp rest ih =>
    obtain ⟨k, p⟩ := kp
    rw [parse_and_match_all] at h
    cases hval : p.parse_value (groups k) with
    | error e =>
      simp only [hval] at h
      exact Except.noConfusion h
    | ok v =>
      simp only [hval] at h
      cases hrest : parse_and_match_all rest groups with
      | error e =>
        simp only [hrest] at h
        exact Except.noConfusion h
      | ok pr =>
        obtain ⟨vs2, good2⟩ := pr
        simp only [hrest, Except.ok.injEq, Prod.mk.injEq] at h
        obtain ⟨h1, h2⟩ := h
        subst h1
        simp only [List.map_cons]
        rw [ih hrest]

theorem parse_and_match_all_mem {params : List (String × IDFilter V)}
    {groups : String → String} {vs : List (String × V)} {good : Bool}
    (h : parse_and_match_all params groups = .ok (vs, good)) :
    ∀ kp ∈ params, ∃ v, kp.2.parse_value (groups kp.1) = .ok v ∧ (kp.1, v) ∈ vs
      ∧ (good = true → kp.2.matchv v = true) := by
  induction params generalizing vs good with
  | nil => simp
  | cons kp0 rest ih =>
    obtain ⟨k, p⟩ := kp0
    rw [parse_and_match_all] at h
    cases hval : p.parse_value (groups k) with
    | error e =>
      simp only [hval] at h
      exact Except.noConfusion h
    | ok v =>
      simp only [hval] at h
      cases hrest : parse_and_match_all rest groups with
      | error e =>
        simp only [hrest] at h
        exact Except.noConfusion h
      | ok pr =>
        obtain ⟨vs2, good2⟩ := pr
        simp only [hrest, Except.ok.injEq, Prod.mk.injEq] at h
        obtain ⟨h1, h2⟩ := h
        subst h1
        intro kp hkp
        rcases List.mem_cons.mp hkp with h3 | h3
        · subst h3
          refine ⟨v, hval, by simp, ?_⟩
          intro hg
          rw [← h2, Bool.and_eq_true] at hg
          exact hg.1
        · obtain ⟨w, hw, hwm, hwg⟩ := ih hrest kp h3
          refine ⟨w, hw, List.mem_cons_of_mem _ hwm, ?_⟩
          intro hg
          rw [← h2, Bool.and_eq_true] at hg
          exact hwg hg.2

theorem parse_and_match_all_ok_of_all {params : List (String × IDFilter V)}
    {groups : String → String}
    (hall : ∀ kp ∈ params, ∃ v, kp.2.parse_value (groups kp.1) = .ok v
      ∧ kp.2.matchv v = true) :
    ∃ vs, parse_and_match_all params groups = .ok (vs, true) := by
  induction params with
  | nil => exact ⟨[], rfl⟩
  | cons kp0 rest ih =>
    obtain ⟨k, p⟩ := kp0
    obtain ⟨v, hv, hm⟩ := hall (k, p) (by simp)
    have hv2 : p.parse_value (groups k) = .ok v := hv
    have hm2 : p.matchv v = true := hm
    obtain ⟨vs2, h2⟩ := ih (fun e he => hall e (by simp [he]))
    refine ⟨(k, v) :: vs2, ?_⟩
    rw [parse_and_match_all]
    simp only [hv2, h2, hm2, Bool.true_and]

theorem match_candidates_mem {params : List (String × IDFilter V)}
    {rm : String → Option (String → String)} {paths : List String}
    {ms : List (String × List (String × V))}
    (h : match_candidates params rm paths = .ok ms) :
    ∀ pr ∈ ms, ∃ g, rm pr.1 = some g
      ∧ parse_and_match_all params g = .ok (pr.2, true) := by
  induction paths generalizing ms with
  | nil =>
    simp only [match_candidates, Except.ok.injEq] at h
    subst h
    simp
  | cons path rest ih =>
    rw [match_candidates] at h
    cases hrm : rm path with
    | none =>
      simp only [hrm] at h
      exact ih h
    | some g0 =>
      simp only [hrm] at h
      cases hpm : parse_and_match_all params g0 with
      | error e =>
        simp only [hpm] at h
        exact Except.noConfusion h
      | ok pr0 =>
        obtain ⟨vs, good⟩ := pr0
        simp only [hpm] at h
        cases htl : match_candidates params rm rest with
        | error e =>
          simp only [htl] at h
          exact Except.noConfusion h
        | ok tl =>
          simp only [htl, Except.ok.injEq] at h
          cases hg : good with
          | true =>
            rw [hg] at h
            have h2 : (path, vs) :: tl = ms := h
            subst h2
            intro pr hpr
            rcases List.mem_cons.mp hpr with h3 | h3
            · subst h3
              rw [hg] at hpm
              exact ⟨g0, hrm, hpm⟩
            · exact ih htl pr h3
          | false =>
            rw [hg] at h
            have h2 : tl = ms := h
            subst h2
            exact ih htl

theorem match_candidates_all_parse {params : List (String × IDFilter V)}
    {rm : String → Option (String → String)} {paths : List String}
    {ms : List (String × List (String × V))}
    (h : match_candidates params rm paths = .ok ms) :
    ∀ p ∈ paths, ∀ g, rm p = some g →
      ∃ r, parse_and_match_all params g = .ok r := by
  induction paths generalizing ms with
  | nil => simp
  | cons path rest ih =>
    rw [match_candidates] at h
    cases hrm : rm path with
    | none =>
      simp only [hrm] at h
      intro p hp g hg
      rcases List.mem_cons.mp hp with h3 | h3
      · subst h3
        rw [hrm] at hg
        exact Option.noConfusion hg
      · exact ih h p h3 g hg
    | some g0 =>
      simp only [hrm] at h
      cases hpm : parse_and_match_all params g0 with
      | error e =>
        simp only [hpm] at h
        exact Except.noConfusion h
      | ok pr0 =>
        obtain ⟨vs, good⟩ := pr0
        simp only [hpm] at h
        cases htl : match_candidates params rm rest with
        | error e =>
          simp only [htl] at h
          exact Except.noConfusion h
        | ok tl =>
          intro p hp g hg
          rcases List.mem_cons.mp hp with h3 | h3
          · subst h3
            rw [hrm] at hg
            obtain rfl := Option.some.injEq .. ▸ hg
            exact ⟨(vs, good), hpm⟩
          · exact ih htl p h3 g hg

theorem match_candidates_iff {params : List (String × IDFilter V)}
    {rm : String → Option (String → String)} {paths : List String}
    {ms : List (String × List (String × V))}
    (h : match_candidates params rm paths = .ok ms) (p : String) :
    (∃ rec, (p, rec) ∈ ms) ↔
      (p ∈ paths ∧ ∃ g, rm p = some g
        ∧ ∃ vs, parse_and_match_all params g = .ok (vs, true)) := by
  induction paths generalizing ms with
  | nil =>
    simp only [match_candidates, Except.ok.injEq] at h
    subst h
    simp
  | cons path rest ih =>
    rw [match_candidates] at h
    cases hrm : rm path with
    | none =>
      constructor
      · intro hl
        simp only [hrm] at h
        obtain ⟨hmem, hrhs⟩ := (ih h).mp hl
        exact ⟨List.mem_cons_of_mem _ hmem, hrhs⟩
      · intro hr
        obtain ⟨hmem, g, hg, hvs⟩ := hr
        simp only [hrm] at h
        rcases List.mem_cons.mp hmem with h3 | h3
        · subst h3
          rw [hrm] at hg
          exact Option.noConfusion hg
        · exact (ih h).mpr ⟨h3, g, hg, hvs⟩
    | some g0 =>
      simp only [hrm] at h
      cases hpm : parse_and_match_all params g0 with
      | error e =>
        simp only [hpm] at h
        exact Except.noConfusion h
      | ok pr0 =>
        obtain ⟨vs, good⟩ := pr0
        simp only [hpm] at h
        cases htl : match_candidates params rm rest with
        | error e =>
          simp only [htl] at h
          exact Except.noConfusion h
        | ok tl =>
          simp only [htl, Except.ok.injEq] at h
          cases hg : good with
          | true =>
            rw [hg] at h
            have h2 : (path, vs) :: tl = ms := h
            subst h2
            constructor
            · intro hl
              obtain ⟨rec, hrec⟩ := hl
              rcases List.mem_cons.mp hrec with h3 | h3
              · have hp : p = path := congrArg Prod.fst h3
                subst hp
                rw [hg] at hpm
                exact ⟨by simp, g0, hrm, vs, hpm⟩
              · obtain ⟨hmem, hrhs⟩ := (ih htl).mp ⟨rec, h3⟩
                exact ⟨List.mem_cons_of_mem _ hmem, hrhs⟩
            · intro hr
              obtain ⟨hmem, g, hgg, hvs⟩ := hr
              by_cases hpp : p = path
              · subst hpp
                exact ⟨vs, by simp⟩
              · rcases List.mem_cons.mp hmem with h3 | h3
                · exact absurd h3 hpp
                · obtain ⟨rec, hrec⟩ := (ih htl).mpr ⟨h3, g, hgg, hvs⟩
                  exact ⟨rec, List.mem_cons_of_mem _ hrec⟩
          | false =>
            rw [hg] at h
            have h2 : tl = ms := h
            subst h2
            constructor
            · intro hl
              obtain ⟨hmem, hrhs⟩ := (ih htl).mp hl
              exact ⟨List.mem_cons_of_mem _ hmem, hrhs⟩
            · intro hr
              obtain ⟨hmem, g, hgg, hvs⟩ := hr
              rcases List.mem_cons.mp hmem with h3 | h3
              · subst h3
                rw [hrm] at hgg
                obtain rfl := Option.some.injEq .. ▸ hgg
                obtain ⟨vs2, hvs2⟩ := hvs
                rw [hpm] at hvs2
                have : (vs, good) = (vs2, true) := Except.ok.inj hvs2
                rw [hg] at this
                exact absurd (congrArg Prod.snd this) (by simp)
              · exact (ih htl).mpr ⟨h3, g, hgg, hvs⟩

end DiscoveryLemmas

/-- C1: on a discovery call that returns, a candidate path is in the
returned list exactly when the regex matches it and every filter's
`match()` is true for the value parsed from its capture group; candidates
failing the regex are silently dropped. In particular every returned path
satisfies all supplied filter constraints. -/
theorem find_files_membership {V : Type} [LinearOrder V] [Inhabited V]
    {params : List (String × IDFilter V)} {rm : String → Option (String → String)}
    {paths : List String} {fns : List String} {ids : List (String × List V)}
    (h : find_files_and_match_params params rm paths = .ok (fns, ids)) (p : String) :
    p ∈ fns ↔ p ∈ paths ∧ ∃ g, rm p = some g
      ∧ ∀ kp ∈ params, ∃ v, kp.2.parse_value (g kp.1) = .ok v
        ∧ kp.2.matchv v = true := by
  rw [find_files_and_match_params] at h
  cases hmc : match_candidates params rm paths with
  | error e =>
    simp only [hmc] at h
    exact Except.noConfusion h
  | ok ms =>
    simp only [hmc, Except.ok.injEq, Prod.mk.injEq] at h
    obtain ⟨h1, h2⟩ := h
    subst h1
    have hmm : p ∈ ms.map Prod.fst ↔ ∃ rec, (p, rec) ∈ ms := by
      constructor
      · intro hp
        obtain ⟨pr, hpr, hpe⟩ := List.mem_map.mp hp
        refine ⟨pr.2, ?_⟩
        rw [← hpe]
        exact hpr
      · intro hp
        obtain ⟨rec, hrec⟩ := hp
        exact List.mem_map.mpr ⟨(p, rec), hrec, rfl⟩
    rw [hmm, match_candidates_iff hmc p]
    constructor
    · rintro ⟨hp, g, hg, vs, hvs⟩
      refine ⟨hp, g, hg, ?_⟩
      intro kp hkp
      obtain ⟨v, hv, hvm, hvg⟩ := parse_and_match_all_mem hvs kp hkp
      exact ⟨v, hv, hvg rfl⟩
    · rintro ⟨hp, g, hg, hall⟩
      exact ⟨hp, g, hg, parse_and_match_all_ok_of_all hall⟩

/-- A concrete one-filter instance used by the discovery witnesses: the
filter parses only the token `123` (anything else raises the parse error)
and its query is the single value 123. -/
def exFilter : IDFilter Nat :=
  { parse_value := fun s => if s = "123" then .ok 123 else .error (.parseError s),
    query := .single 123 }

/-- A concrete regex model for the discovery witnesses: only the path
`good` matches, and its capture groups all read `123`. -/
def exRM : String → Option (String → String) :=
  fun p => if p = "good" then some (fun _ => "123") else none

/-- Witness for C1: on the candidate list `[good, junk]`, discovery keeps
exactly `good`, and the membership equivalence holds for it. -/
theorem find_files_membership_witness :
    "good" ∈ ["good"] ↔ "good" ∈ ["good", "junk"]
      ∧ ∃ g, exRM "good" = some g
        ∧ ∀ kp ∈ [("visit", exFilter)], ∃ v, kp.2.parse_value (g kp.1) = .ok v
          ∧ kp.2.matchv v = true :=
  find_files_membership
    (show find_files_and_match_params [("visit", exFilter)] exRM ["good", "junk"]
        = .ok (["good"], [("visit", [123])]) from rfl) "good"

/-- Counterexample to C2 as stated: discovery over the candidates
`[bad, good]`, where the regex matches `bad` but its token fails to parse,
propagates the `ParseError` out of the discovery call instead of dropping
`bad` and returning the valid `good`. -/
theorem parse_failure_counterexample :
    find_files_and_match_params [("visit", exFilter)]
        (fun p => if p = "bad" then some (fun _ => "xx") else exRM p) ["bad", "good"]
      = .error (.parseError "xx") := rfl

/-- C2 as amended: when any candidate's path matches the regex and its
capture-group token fails to parse for some filter, the `ParseError`
propagates out of the discovery call (the call aborts with an error; the
loop has no per-candidate handler). -/
theorem parse_failure_propagates {V : Type} [LinearOrder V] [Inhabited V]
    {params : List (String × IDFilter V)} {rm : String → Option (String → String)}
    {paths : List String} {p : String} {g : String → String}
    {kp : String × IDFilter V} {e : PyError}
    (hmem : p ∈ paths) (hrm : rm p = some g) (hkp : kp ∈ params)
    (hpe : kp.2.parse_value (g kp.1) = .error e) :
    ∃ e2, find_files_and_match_params params rm paths = .error e2 := by
  cases hres : find_files_and_match_params params rm paths with
  | error e2 => exact ⟨e2, rfl⟩
  | ok pr =>
    exfalso
    rw [find_files_and_match_params] at hres
    cases hmc : match_candidates params rm paths with
    | error e3 =>
      simp only [hmc] at hres
      exact Except.noConfusion hres
    | ok ms =>
      obtain ⟨r, hr⟩ := match_candidates_all_parse hmc p hmem g hrm
      obtain ⟨vs, good⟩ := r
      obtain ⟨v, hv, hvm, hvg⟩ := parse_and_match_all_mem hr kp hkp
      rw [hpe] at hv
      exact Except.noConfusion hv

/-- Witness for C2 (amended) on the concrete two-candidate instance. -/
theorem parse_failure_propagates_witness :
    ∃ e2, find_files_and_match_params [("visit", exFilter)]
        (fun p => if p = "bad" then some (fun _ => "xx") else exRM p) ["bad", "good"]
      = .error e2 :=
  parse_failure_propagates (p := "bad") (g := fun _ => "xx")
    (by simp) rfl (List.mem_singleton.mpr rfl) rfl

/-- C8: on a discovery call that returns, the identifier record's keys are
exactly the filter names; every per-name list is as long as the paths list;
and position `i` of the per-name list of any filter holds exactly the value
that filter parses from its capture group of the regex match of the path at
position `i` (positional alignment), that value moreover satisfying the
filter. -/
theorem find_files_alignment {V : Type} [LinearOrder V] [Inhabited V]
    {params : List (String × IDFilter V)} {rm : String → Option (String → String)}
    {paths : List String} {fns : List String} {ids : List (String × List V)}
    (hnd : (params.map Prod.fst).Nodup)
    (h : find_files_and_match_params params rm paths = .ok (fns, ids)) :
    ids.map Prod.fst = params.map Prod.fst
    ∧ (∀ e ∈ ids, e.2.length = fns.length)
    ∧ ∀ i, i < fns.length → ∀ kp ∈ params, ∃ g v l,
        rm (fns.getD i "") = some g
        ∧ kp.2.parse_value (g kp.1) = .ok v
        ∧ kp.2.matchv v = true
        ∧ ids.lookup kp.1 = some l
        ∧ l.getD i default = v := by
  rw [find_files_and_match_params] at h
  cases hmc : match_candidates params rm paths with
  | error e =>
    simp only [hmc] at h
    exact Except.noConfusion h
  | ok ms =>
    simp only [hmc, Except.ok.injEq, Prod.mk.injEq] at h
    obtain ⟨h1, h2⟩ := h
    subst h1
    subst h2
    have hkeys : (params.map fun kp => (kp.1, ms.map fun m => record_get m.2 kp.1)).map Prod.fst
        = params.map Prod.fst := by
      rw [List.map_map]
      rfl
    refine ⟨hkeys, ?_, ?_⟩
    · intro e he
      obtain ⟨kp, hkp, hke⟩ := List.mem_map.mp he
      rw [← hke]
      simp
    · intro i hi kp hkp
      have hi2 : i < ms.length := by simpa using hi
      have hmem : ms[i] ∈ ms := List.getElem_mem hi2
      obtain ⟨g, hg, hpm⟩ := match_candidates_mem hmc ms[i] hmem
      obtain ⟨v, hv, hvm, hvg⟩ := parse_and_match_all_mem hpm kp hkp
      have hrk : (ms[i].2.map Prod.fst).Nodup := by
        rw [parse_and_match_all_keys hpm]
        exact hnd
      have hlk : ms[i].2.lookup kp.1 = some v := lookup_of_mem_nodup hrk hvm
      have hfn : (ms.map Prod.fst).getD i "" = ms[i].1 := by
        rw [List.getD_eq_getElem _ _ (by simpa using hi2), List.getElem_map]
      have hidnd : ((params.map fun kp =>
          (kp.1, ms.map fun m => record_get m.2 kp.1)).map Prod.fst).Nodup := by
        rw [hkeys]
        exact hnd
      have hidm : (kp.1, ms.map fun m => record_get m.2 kp.1)
          ∈ params.map fun kp => (kp.1, ms.map fun m => record_get m.2 kp.1) :=
        List.mem_map.mpr ⟨kp, hkp, rfl⟩
      have hidl : (params.map fun kp => (kp.1, ms.map fun m => record_get m.2 kp.1)).lookup kp.1
          = some (ms.map fun m => record_get m.2 kp.1) :=
        lookup_of_mem_nodup hidnd hidm
      refine ⟨g, v, ms.map fun m => record_get m.2 kp.1, ?_, hv, hvg rfl, hidl, ?_⟩
      · rw [hfn]
        exact hg
      · rw [List.getD_eq_getElem _ _ (by simpa using hi2), List.getElem_map]
        rw [record_get, hlk]
        rfl

/-- Witness for C8 on the concrete one-filter instance. -/
theorem find_files_alignment_witness :
    [("visit", [(123 : Nat)])].map Prod.fst = [("visit", exFilter)].map Prod.fst
    ∧ (∀ e ∈ [("visit", [(123 : Nat)])], e.2.length = ["good"].length)
    ∧ ∀ i, i < ["good"].length → ∀ kp ∈ [("visit", exFilter)], ∃ g v l,
        exRM (["good"].getD i "") = some g
        ∧ kp.2.parse_value (g kp.1) = .ok v
        ∧ kp.2.matchv v = true
        ∧ [("visit", [(123 : Nat)])].lookup kp.1 = some l
        ∧ l.getD i default = v :=
  find_files_alignment (by simp)
    (show find_files_and_match_params [("visit", exFilter)] exRM ["good", "junk"]
        = .ok (["good"], [("visit", [123])]) from rfl)

section OverrideLemmas

variable {V : Type}

theorem lookup_cons_self {b : Type} (k : String) (v : b) (t : List (String × b)) :
    List.lookup k ((k, v) :: t) = some v := by
  simp [List.lookup]

theorem lookup_cons_ne {b : Type} {k k1 : String} (hne : k ≠ k1) (v : b)
    (t : List (String × b)) :
    List.lookup k ((k1, v) :: t) = List.lookup k t := by
  simp [List.lookup, beq_eq_false_iff_ne.mpr hne]

theorem set_query_lookup_self {ps : List (String × IDFilter V)} (k : String)
    (q : QueryState V) :
    (set_query ps k q).lookup k = (ps.lookup k).map (fun f => { f with query := q }) := by
  induction ps with
  | nil => rfl
  | cons e t ih =>
    obtain ⟨k1, f1⟩ := e
    rw [set_query, List.map_cons]
    by_cases hk : k1 = k
    · subst hk
      rw [if_pos rfl]
      rw [lookup_cons_self, lookup_cons_self]
      rfl
    · have hne : k ≠ k1 := fun hh => hk hh.symm
      rw [if_neg hk]
      rw [lookup_cons_ne hne, lookup_cons_ne hne]
      exact ih

theorem set_query_lookup_other {ps : List (String × IDFilter V)} {k k2 : String}
    (hne : k2 ≠ k) (q : QueryState V) :
    (set_query ps k q).lookup k2 = ps.lookup k2 := by
  induction ps with
  | nil => rfl
  | cons e t ih =>
    obtain ⟨k1, f1⟩ := e
    rw [set_query, List.map_cons]
    by_cases hk : k1 = k
    · subst hk
      rw [if_pos rfl]
      rw [lookup_cons_ne hne, lookup_cons_ne hne]
      exact ih
    · rw [if_neg hk]
      by_cases h2 : k2 = k1
      · subst h2
        rw [lookup_cons_self, lookup_cons_self]
      · rw [lookup_cons_ne h2, lookup_cons_ne h2]
        exact ih

theorem update_one_lookup_other {ps : List (String × IDFilter V)}
    {d : String → Option (QueryState V)} {k1 k : String}
    {ov : Option (QueryState V)} (hne : k1 ≠ k) :
    (update_one ps d k1 ov).lookup k = ps.lookup k := by
  unfold update_one
  by_cases hs : (ps.lookup k1).isSome
  · rw [if_pos hs]
    cases ov with
    | some q => exact set_query_lookup_other (Ne.symm hne) q
    | none =>
      cases d k1 with
      | some q => exact set_query_lookup_other (Ne.symm hne) q
      | none => rfl
  · rw [if_neg hs]

theorem update_foldl_lookup_not_mem {pvs : List (String × Option (QueryState V))}
    {ps : List (String × IDFilter V)} {d : String → Option (QueryState V)} {k : String}
    (hnm : k ∉ pvs.map Prod.fst) :
    (update_param_values ps pvs d).lookup k = ps.lookup k := by
  induction pvs generalizing ps with
  | nil => rfl
  | cons kv t ih =>
    simp only [List.map_cons, List.mem_cons] at hnm
    push_neg at hnm
    rw [show update_param_values ps (kv :: t) d
        = update_param_values (update_one ps d kv.1 kv.2) t d from rfl]
    rw [ih hnm.2]
    exact update_one_lookup_other (fun hh => hnm.1 hh.symm)

end OverrideLemmas

/-- C9: in discovery query setup, for each filter name: a non-null entry of
`query_overrides` sets that filter's query to the override (caller wins); a
null entry falls back to the connector instance's default for that name when
the instance has one, and leaves the filter unchanged when it has none; a
name absent from `query_overrides` leaves the filter's existing query state
unchanged. -/
theorem query_override_precedence {V : Type} {params : List (String × IDFilter V)}
    {param_values : List (String × Option (QueryState V))}
    {d : String → Option (QueryState V)} {k : String} {f : IDFilter V}
    (hnd : (param_values.map Prod.fst).Nodup)
    (hp : params.lookup k = some f) :
    (∀ q, param_values.lookup k = some (some q) →
        (update_param_values params param_values d).lookup k = some { f with query := q })
    ∧ (∀ qd, param_values.lookup k = some none → d k = some qd →
        (update_param_values params param_values d).lookup k = some { f with query := qd })
    ∧ (param_values.lookup k = some none → d k = none →
        (update_param_values params param_values d).lookup k = some f)
    ∧ (param_values.lookup k = none →
        (update_param_values params param_values d).lookup k = some f) := by
  revert hnd hp
  induction param_values generalizing params f with
  | nil =>
    intro hnd hp
    refine ⟨?_, ?_, ?_, ?_⟩
    · intro q hq
      exact Option.noConfusion hq
    · intro qd hq hd
      exact Option.noConfusion hq
    · intro hq hd
      exact Option.noConfusion hq
    · intro hq
      exact hp
  | cons kv t ih =>
    intro hnd hp
    obtain ⟨k1, ov⟩ := kv
    simp only [List.map_cons, List.nodup_cons] at hnd
    have hfold : update_param_values params ((k1, ov) :: t) d
        = update_param_values (update_one params d k1 ov) t d := rfl
    by_cases hk : k1 = k
    · subst hk
      have hnm : k1 ∉ t.map Prod.fst := hnd.1
      have hsome : (params.lookup k1).isSome = true := by
        rw [hp]
        rfl
      refine ⟨?_, ?_, ?_, ?_⟩
      · intro q hq
        rw [lookup_cons_self] at hq
        have hov : ov = some q := Option.some.inj hq
        subst hov
        have hstep : update_one params d k1 (some q) = set_query params k1 q := by
          unfold update_one
          rw [if_pos hsome]
        rw [hfold, hstep, update_foldl_lookup_not_mem hnm, set_query_lookup_self, hp]
        rfl
      · intro qd hq hd
        rw [lookup_cons_self] at hq
        have hov : ov = none := Option.some.inj hq
        subst hov
        have hstep : update_one params d k1 none = set_query params k1 qd := by
          unfold update_one
          rw [if_pos hsome, hd]
        rw [hfold, hstep, update_foldl_lookup_not_mem hnm, set_query_lookup_self, hp]
        rfl
      · intro hq hd
        rw [lookup_cons_self] at hq
        have hov : ov = none := Option.some.inj hq
        subst hov
        have hstep : update_one params d k1 none = params := by
          unfold update_one
          rw [if_pos hsome, hd]
        rw [hfold, hstep, update_foldl_lookup_not_mem hnm]
        exact hp
      · intro hq
        rw [lookup_cons_self] at hq
        exact Option.noConfusion hq
    · have hne : k ≠ k1 := fun hh => hk hh.symm
      have hstep : (update_one params d k1 ov).lookup k = some f := by
        rw [update_one_lookup_other hk]
        exact hp
      have iht := ih hnd.2 hstep
      refine ⟨?_, ?_, ?_, ?_⟩
      · intro q hq
        rw [lookup_cons_ne hne] at hq
        rw [hfold]
        exact iht.1 q hq
      · intro qd hq hd
        rw [lookup_cons_ne hne] at hq
        rw [hfold]
        exact iht.2.1 qd hq hd
      · intro hq hd
        rw [lookup_cons_ne hne] at hq
        rw [hfold]
        exact iht.2.2.1 hq hd
      · intro hq
        rw [lookup_cons_ne hne] at hq
        rw [hfold]
        exact iht.2.2.2 hq

/-- Witness for C9: a non-null override replaces the filter query on a
concrete instance. -/
theorem query_override_precedence_witness :
    (update_param_values [("visit", exFilter)] [("visit", some (QueryState.single 7))]
        (fun _ => none)).lookup "visit"
      = some { exFilter with query := QueryState.single 7 } :=
  (query_override_precedence (by simp) (show [("visit", exFilter)].lookup "visit"
      = some exFilter from rfl)).1 (QueryState.single 7) rfl

end DrpGA
